import Mathlib

/-!
Verification development for the mattermost/cicd-sdk cherry-pick engine.

The definitions below are a shallow embedding of the Go source:
* `pkg/github/commit.go` — the `Commit` value type and its change-tree fingerprint;
* `pkg/github/pullrequest.go` and `pkg/github/pullrequest_implementation.go` —
  merge-mode classification, patch-tree resolution and rebase reconstruction;
* `pkg/git/repository.go` — porcelain-status conflict detection and the
  `git cherry-pick -m` command construction;
* the cherry-picker orchestrator (`CreateCherryPickPRWithContext`, latest revision).

GitHub API calls are modelled by an explicit environment mapping SHAs to
commits; Go's `(value, error)` returns become an `Outcome` value, and a Go
runtime panic (out-of-range slice index) is a distinguished `Outcome.fail`
carrying the runtime message, kept apart from ordinary returned errors.
-/

/-- Result of a Go function returning `(value, error)`. `ok` is a nil error,
`err` is a returned non-nil error, and `fail` is a runtime panic (such as an
out-of-range slice index), which never surfaces as a Go `error` value. -/
inductive Outcome (α : Type) where
  | ok : α → Outcome α
  | err : String → Outcome α
  | fail : String → Outcome α
deriving DecidableEq, Repr

/-- `CommitFile` from `pkg/github/commit.go`: one file changed in a commit. -/
structure CommitFile where
  filename : String
  sha : String
deriving DecidableEq, Repr

/-- `Commit` from `pkg/github/commit.go`: SHA, tree SHA, parent SHAs and
changed files. The Go `impl` interface field is modelled by passing the
fingerprint function explicitly to the operations that use it. -/
structure Commit where
  sha : String
  treeSHA : String
  parents : List String
  files : List CommitFile
deriving DecidableEq, Repr

/-- The fields of `PullRequest` (`pkg/github/pullrequest.go`) used by the
classification and replay algorithms. -/
structure PullRequest where
  repoOwner : String
  repoName : String
  number : Nat
  mergeCommitSHA : String
deriving DecidableEq, Repr

/-- Merge-mode constant `MERGE`/`MMMERGE` (= "merge") from the source. -/
def MERGE : String := "merge"

/-- Merge-mode constant `SQUASH`/`MMSQUASH` (= "squash") from the source. -/
def SQUASH : String := "squash"

/-- Merge-mode constant `REBASE`/`MMREBASE` (= "rebase") from the source. -/
def REBASE : String := "rebase"

/-- The GitHub API surface used by the algorithms: the commit list of the
pull request (`PullRequests.ListCommits`, as a SHA list, `none` = API error)
and commit lookup by SHA (`Repositories.GetCommit`; `none` covers both an
API error and a nil commit in the response, each of which the Go code turns
into a returned error). -/
structure Env where
  listPRCommits : Option (List String)
  getCommit : String → Option Commit

/-- Lexicographic comparison of character lists (the order used to sort
blob hashes before digesting). -/
def charsLe : List Char → List Char → Bool
  | [], _ => true
  | _ :: _, [] => false
  | c :: cs, d :: ds => if c = d then charsLe cs ds else decide (c < d)

/-- Lexicographic order on strings, as a proposition. -/
def strLe (a b : String) : Prop :=
  charsLe a.data b.data = true

instance : DecidableRel strLe :=
  fun a b => by unfold strLe; infer_instance

/-- Modelled from the spec: `defaultCommitImplementation.ChangeTree`, the
body of the content fingerprint, is not among the source files (only its
interface, callers and unit test are). Per the spec (§4.1): sort the blob
hashes of the changed files (by blob hash, not path), concatenate them with
a separator, and digest the result; the empty file list yields exactly `""`.
The cryptographic digest is abstracted as the `digest` parameter. -/
def changeTree (digest : String → String) (files : List CommitFile) : String :=
  if files = [] then ""
  else digest (String.intercalate "-"
    (List.insertionSort strLe (files.map CommitFile.sha)))

/-- Helper for `splitLines`: walk the characters, cutting at each newline.
`acc` holds the characters of the current line, reversed. -/
def splitLinesAux : List Char → List Char → List String
  | [], acc => [String.mk acc.reverse]
  | c :: cs, acc =>
    if c = '\n' then String.mk acc.reverse :: splitLinesAux cs []
    else splitLinesAux cs (c :: acc)

/-- Go's `strings.Split(s, "\n")`: split at every newline; the empty string
yields `[""]`, and a trailing newline yields a final empty line. -/
def splitLines (s : String) : List String :=
  splitLinesAux s.data []

/-- Go's `strings.HasPrefix(line, "U")`: the line's first character is 'U'. -/
def startsWithU (line : String) : Bool :=
  match line.data with
  | [] => false
  | c :: _ => c = 'U'

/-- `defaultRepositoryImpl.hasMergeConflicts` (`pkg/git/repository.go`):
scan the porcelain status line by line, flagging a conflict whenever a line
starts with "U". The files list is always left empty (the Go code never
fills it; a `TODO` marks that) and the returned error is always nil. -/
def hasMergeConflicts (status : String) : Bool × List String × Option String :=
  ((splitLines status).foldl (fun acc line => acc || startsWithU line) false,
   [], none)

/-- `Repository.HasMergeConflicts` (`pkg/git/repository.go`): run
`git status --porcelain` (its result is the `statusResult` argument, `none`
when the command failed) and interpret it with `hasMergeConflicts`. On a
status failure Go returns `(false, nil, err)`; the nil slice is `none`. -/
def HasMergeConflicts (statusResult : Option String) :
    Bool × Option (List String) × Option String :=
  match statusResult with
  | none => (false, none, some "getting repository status")
  | some status =>
    let r := hasMergeConflicts status
    (r.1, some r.2.1, r.2.2)

/-- Inner loop of `defaultPRImplementation.getCommits`: fetch each listed
commit SHA through the API, stopping at the first failure. -/
def fetchCommitList (env : Env) : List String → Outcome (List Commit)
  | [] => .ok []
  | sha :: rest =>
    match env.getCommit sha with
    | none => .err ("querying GitHub for commit " ++ sha)
    | some c =>
      match fetchCommitList env rest with
      | .ok cs => .ok (c :: cs)
      | .err e => .err e
      | .fail m => .fail m

/-- `defaultPRImplementation.getCommits`
(`pkg/github/pullrequest_implementation.go`): list the PR's commits, then
fetch the full commit for each SHA. -/
def getCommits (env : Env) (pr : PullRequest) : Outcome (List Commit) :=
  match env.listPRCommits with
  | none => .err ("querying GitHub for commits in PR " ++ toString pr.number)
  | some shas => fetchCommitList env shas

/-- `defaultPRImplementation.getMergeMode`
(`pkg/github/pullrequest_implementation.go` lines 44-106). `ct` stands for
the commit implementation's `ChangeTree`; `hasRepo` is whether
`pr.GetRepository(ctx)` is non-nil. `commits[len(commits)-1]` on an empty
slice is a Go runtime panic, modelled by the `fail` branch. -/
def getMergeMode (ct : List CommitFile → String) (env : Env) (hasRepo : Bool)
    (pr : PullRequest) (commits : List Commit) : Outcome String :=
  if hasRepo = false then
    .err "unable to get merge mode, pull request has no repo"
  else if pr.mergeCommitSHA = "" then
    .err "unable to get merge mode, pr does not have merge commit SHA"
  else
    match env.getCommit pr.mergeCommitSHA with
    | none => .err ("querying GitHub for merge commit " ++ pr.mergeCommitSHA)
    | some mergeCommit =>
      if mergeCommit.parents.length > 1 then .ok MERGE
      else if commits.length = 1 then .ok SQUASH
      else
        match commits.getLast? with
        | none => .fail "runtime error: index out of range"
        | some lastCommit =>
          if ct mergeCommit.files = ct lastCommit.files then .ok REBASE
          else .ok SQUASH

/-- Parent scan of `defaultPRImplementation.findPatchTree`: walk the merge
commit's parents carrying the running index `pn`; fetch each parent and
return the index of the first whose tree SHA equals `prSHA`. `total` is
`len(mergeCommit.Parents)`, read by the final error message. -/
def findLoop (env : Env) (prSHA : String) (total : Nat) :
    List String → Nat → Outcome Nat
  | [], _ =>
    .err ("unable to find patch tree of merge commit among " ++
      toString total ++ " parents")
  | parent :: rest, pn =>
    match env.getCommit parent with
    | none => .err ("querying GitHub for parent commit " ++ parent)
    | some parentCommit =>
      if parentCommit.treeSHA = prSHA then .ok pn
      else findLoop env prSHA total rest (pn + 1)

/-- `defaultPRImplementation.findPatchTree`
(`pkg/github/pullrequest_implementation.go` lines 144-203): resolve which
parent of the merge commit carries the PR-side tree, by comparing each
parent's tree SHA against the tree SHA of the last PR commit. No parent
matching is a returned error, never a defaulted index. -/
def findPatchTree (env : Env) (pr : PullRequest) : Outcome Nat :=
  match getCommits env pr with
  | .err e => .err ("getting pr commits: " ++ e)
  | .fail m => .fail m
  | .ok commits =>
    if commits.length = 0 then
      .err "unable to find patch tree, commit list is empty"
    else
      match env.getCommit pr.mergeCommitSHA with
      | none => .err ("querying GitHub for merge commit " ++ pr.mergeCommitSHA)
      | some mergeCommit =>
        if mergeCommit.parents.length = 0 then
          .err ("commit " ++ mergeCommit.sha ++ " has no parents defined")
        else
          match commits.getLast? with
          | none => .fail "runtime error: index out of range"
          | some lastCommit =>
            findLoop env lastCommit.treeSHA mergeCommit.parents.length
              mergeCommit.parents 0

/-- Walk loop of `defaultPRImplementation.getRebaseCommits`
(`pkg/github/pullrequest_implementation.go` lines 234-260). The Go loop
`for i := len(prCommits); i > 0; i--` visits `prCommits[i-1]`, i.e. the PR
commits in reverse order, so it is embedded as structural recursion over
the reversed PR-commit list. At each step: compare change-tree
fingerprints, append the branch commit, then read `branchCommit.Parents[0]`
— a runtime panic when the parent list is empty — and fetch that parent
(also on the final iteration). -/
def rebaseLoop (ct : List CommitFile → String) (env : Env) :
    List Commit → Commit → List Commit → Outcome (List Commit)
  | [], _, acc => .ok acc
  | prc :: rest, branchCommit, acc =>
    if ct prc.files ≠ ct branchCommit.files then
      .err ("Mismatch in checktrees on commit PR:" ++ ct prc.files ++
        " vs Branch:" ++ ct branchCommit.files)
    else
      match branchCommit.parents with
      | [] => .fail "runtime error: index out of range"
      | parentSHA :: _ =>
        match env.getCommit parentSHA with
        | none => .err ("while fetching branch commit " ++ parentSHA)
        | some next => rebaseLoop ct env rest next (acc ++ [branchCommit])

/-- `defaultPRImplementation.getRebaseCommits`
(`pkg/github/pullrequest_implementation.go` lines 209-268): fetch the PR
commits and the merge-point commit, guard the merge-point commit against an
empty parent list, walk the branch history matching fingerprints, then
reverse the collected list so it is oldest-first (the Go in-place swap
loop is exactly list reversal). -/
def getRebaseCommits (ct : List CommitFile → String) (env : Env)
    (pr : PullRequest) : Outcome (List Commit) :=
  match getCommits env pr with
  | .err e => .err ("fetching commits from pr: " ++ e)
  | .fail m => .fail m
  | .ok prCommits =>
    match env.getCommit pr.mergeCommitSHA with
    | none => .err ("querying GitHub for merge commit " ++ pr.mergeCommitSHA)
    | some branchCommit =>
      if branchCommit.parents.length = 0 then
        .err "branch commit has no parents"
      else
        match rebaseLoop ct env prCommits.reverse branchCommit [] with
        | .ok commits => .ok commits.reverse
        | .err e => .err e
        | .fail m => .fail m

/-- Walk loop of `PullRequest.GetRebaseCommits` (`pkg/github/pullrequest.go`
lines 99-126): same walk as `rebaseLoop`, but collecting the branch commit
SHAs. Here `branchCommit.Parents[0]` is read with no emptiness guard
anywhere. -/
def shaLoop (ct : List CommitFile → String) (env : Env) :
    List Commit → Commit → List String → Outcome (List String)
  | [], _, acc => .ok acc
  | prc :: rest, branchCommit, acc =>
    if ct prc.files ≠ ct branchCommit.files then
      .err ("Mismatch in PR and branch hashes in commit PR:" ++ ct prc.files ++
        " vs Branch:" ++ ct branchCommit.files)
    else
      match branchCommit.parents with
      | [] => .fail "runtime error: index out of range"
      | parentSHA :: _ =>
        match env.getCommit parentSHA with
        | none => .err ("while fetching branch commit " ++ parentSHA)
        | some next => shaLoop ct env rest next (acc ++ [branchCommit.sha])

/-- `PullRequest.GetRebaseCommits` (`pkg/github/pullrequest.go` lines
81-126): fetch the merge-point commit and the PR commits, walk the branch
history matching fingerprints and collect the branch SHAs. This revision
has no parent-list guard and performs no reversal: the collected list is
returned in walk (newest-first) order. -/
def GetRebaseCommits (ct : List CommitFile → String) (env : Env)
    (hasRepo : Bool) (pr : PullRequest) : Outcome (List String) :=
  if hasRepo = false then
    .err "unable to get rebase commits, pr repository is nil"
  else
    match env.getCommit pr.mergeCommitSHA with
    | none => .err "getting branch commit"
    | some branchCommit =>
      match getCommits env pr with
      | .err e => .err ("getting commits from PR: " ++ e)
      | .fail m => .fail m
      | .ok prCommits => shaLoop ct env prCommits.reverse branchCommit []

/-- `defaultRepositoryImpl.cherryPickMergeCommit` (`pkg/git/repository.go`
lines 173-180): the argument vector handed to git. The parent number is
formatted with `%d` exactly as received. -/
def cherryPickMergeCommitCmd (parent : Nat) (commitSHA : String) : List String :=
  ["cherry-pick", "-m", toString parent, commitSHA]

/-- The `MERGE` branch of `CreateCherryPickPRWithContext`: resolve the
patch-tree parent with `pr.PatchTreeID` (= `findPatchTree`) and hand it,
unchanged, to the repository's `CherryPickMergeCommit`. The value returned
is the git argument vector that the run would execute. -/
def mergeModeCherryPickArgs (env : Env) (pr : PullRequest) :
    Outcome (List String) :=
  match findPatchTree env pr with
  | .ok parent => .ok (cherryPickMergeCommitCmd parent pr.mergeCommitSHA)
  | .err e => .err ("searching for parent patch tree: " ++ e)
  | .fail m => .fail m

/-- Step results of one `CreateCherryPickPRWithContext` run (latest
revision of the cherry-picker). Each field is the outcome of one
collaborator call, in the order the orchestrator makes them: `none` (or
`.err`) stands for that call returning a non-nil error. -/
structure CPEnv where
  initOK : Option String
  pullRequest : Option PullRequest
  mergeMode : Option String
  featureBranch : Option String
  cherryPickRunErr : Option String
  statusRaw : Option String
  patchTreeParent : Outcome Nat
  rebaseSHAs : Outcome (List String)
  pushErr : Option String
  createdPR : Option Nat

/-- What one run did: its returned error (if any) and whether the push and
PR-creation steps were ever reached. -/
structure RunTrace where
  result : Outcome Unit
  pushed : Bool
  prCreated : Bool
deriving DecidableEq, Repr

/-- `pkg/errors.Wrap`: annotates a non-nil error with a message; when the
error is nil it returns nil, and the message is discarded. -/
def errorsWrap (err : Option String) (msg : String) : Option String :=
  match err with
  | none => none
  | some e => some (msg ++ ": " ++ e)

/-- `defaultCPImplementation.cherrypickCommits` (latest revision): run the
repository cherry-pick, then `HasMergeConflicts`. The conflict branch is
`return errors.Wrap(err, "conflicts found while cherrypicking")`, but at
that point `err` is necessarily nil (it just passed the `err != nil`
check), so the branch returns nil: a detected conflict produces no
returned error. Produces the error returned, or `none` otherwise. -/
def cherrypickCommitsStep (env : CPEnv) : Option String :=
  match env.cherryPickRunErr with
  | some e => some ("cherry picking commits: " ++ e)
  | none =>
    let r := HasMergeConflicts env.statusRaw
    match r.2.2 with
    | some e => some ("checking for conflicts: " ++ e)
    | none =>
      if r.1 then errorsWrap none "conflicts found while cherrypicking"
      else none

/-- `defaultCPImplementation.cherrypickMergeCommit` (latest revision): same
conflict check after the merge-commit cherry-pick, with the same
`errors.Wrap` of the nil error in the conflict branch. -/
def cherrypickMergeCommitStep (env : CPEnv) : Option String :=
  match env.cherryPickRunErr with
  | some e => some ("cherry-picking merge commit: " ++ e)
  | none =>
    let r := HasMergeConflicts env.statusRaw
    match r.2.2 with
    | some e => some ("checking for conflicts: " ++ e)
    | none =>
      if r.1 then errorsWrap none "conflicts found while cherrypicking"
      else none

/-- `defaultCPImplementation.cherryPickRebasedPR` (latest revision): take
the reconstructed rebase SHAs, reject an empty list, then cherry-pick them
with the conflict check. -/
def cherryPickRebasedPRStep (env : CPEnv) : Option String :=
  match env.rebaseSHAs with
  | .err e => some ("while getting commits in rebase from PR: " ++ e)
  | .fail m => some m
  | .ok shas =>
    if shas.length = 0 then
      some "empty commit list while searching from commits"
    else cherrypickCommitsStep env

/-- The merge-mode switch of `CreateCherryPickPRWithContext` (latest
revision): squash and rebase replay through `cherrypickCommits`, merge
resolves the patch-tree parent first and replays through
`cherrypickMergeCommit`; any other mode string falls through the switch
performing no replay. Produces the error the switch returns, if any. -/
def replayStep (env : CPEnv) (mm : String) : Option String :=
  if mm = SQUASH then cherrypickCommitsStep env
  else if mm = MERGE then
    match env.patchTreeParent with
    | .err e => some ("searching for parent patch tree: " ++ e)
    | .fail m => some m
    | .ok _ => cherrypickMergeCommitStep env
  else if mm = REBASE then cherryPickRebasedPRStep env
  else none

/-- `CreateCherryPickPRWithContext` (latest revision of the cherry-picker):
initialize, fetch the PR, classify, create the feature branch, dispatch on
the merge mode, and only then push the feature branch and open the pull
request. Any error returns immediately: `pushed`/`prCreated` record
whether those calls were reached. -/
def CreateCherryPickPR (env : CPEnv) : RunTrace :=
  match env.initOK with
  | some e => ⟨.err ("verifying environment: " ++ e), false, false⟩
  | none =>
  match env.pullRequest with
  | none => ⟨.err "getting pull request", false, false⟩
  | some _ =>
  match env.mergeMode with
  | none => ⟨.err "getting merge mode for PR", false, false⟩
  | some mm =>
  match env.featureBranch with
  | none => ⟨.err "creating the feature branch", false, false⟩
  | some _ =>
    match replayStep env mm with
    | some e => ⟨.err e, false, false⟩
    | none =>
      match env.pushErr with
      | some e => ⟨.err ("pushing branch to git remote: " ++ e), true, false⟩
      | none =>
        match env.createdPR with
        | none => ⟨.err "creating pull request in github", true, true⟩
        | some _ => ⟨.ok (), true, true⟩

/-- A successful fingerprint walk: the first list holds the PR commits
still to match, newest first (the order the Go loop visits them); the
second holds the corresponding branch chain. Each step requires matching
fingerprints, a non-empty parent list, and a fetchable first parent (the
source fetches it even on the final step); inner steps additionally
require the fetched parent to be the next chain commit. -/
inductive Walk (ct : List CommitFile → String) (env : Env) :
    List Commit → List Commit → Prop where
  | last (prc c : Commit) (psha : String) (rest : List String) (next : Commit) :
      ct prc.files = ct c.files → c.parents = psha :: rest →
      env.getCommit psha = some next → Walk ct env [prc] [c]
  | step (prc c : Commit) (psha : String) (rest : List String) (next : Commit)
      (p2 : Commit) (ps cs : List Commit) :
      ct prc.files = ct c.files → c.parents = psha :: rest →
      env.getCommit psha = some next →
      Walk ct env (p2 :: ps) (next :: cs) →
      Walk ct env (prc :: p2 :: ps) (c :: next :: cs)

/-- A walk that runs into a fingerprint mismatch: either the current branch
commit mismatches the current PR commit outright, or the step matches (with
a live parent link) and the mismatch occurs further along, before the PR
commits run out. -/
inductive WalkBad (ct : List CommitFile → String) (env : Env) :
    List Commit → Commit → Prop where
  | here (prc c : Commit) (ps : List Commit) :
      ct prc.files ≠ ct c.files → WalkBad ct env (prc :: ps) c
  | there (prc c : Commit) (psha : String) (rest : List String) (next : Commit)
      (ps : List Commit) :
      ct prc.files = ct c.files → c.parents = psha :: rest →
      env.getCommit psha = some next →
      WalkBad ct env ps next → WalkBad ct env (prc :: ps) c

/-- Boolean form of "this parent's fetched commit has tree `prSHA`". -/
def parentMatches (env : Env) (prSHA : String) (parent : String) : Bool :=
  match env.getCommit parent with
  | some c => c.treeSHA = prSHA
  | none => false

/-- Stated from the spec's words for §4.3 ("return the index of the first
parent whose fingerprint matches"): the index of the first matching parent,
if any. Compared against the `findPatchTree` loop. -/
def firstMatchingParent (env : Env) (prSHA : String) : List String → Option Nat
  | [] => none
  | p :: rest =>
    if parentMatches env prSHA p then some 0
    else (firstMatchingParent env prSHA rest).map (· + 1)

/-- Concrete fingerprint used by the closed test scenarios: the file blob
hashes joined in order (injective enough to separate the sample commits). -/
def ctFiles : List CommitFile → String :=
  fun fs => String.intercalate "," (fs.map CommitFile.sha)

/-- Sample changed file `a.txt`. -/
def fileA : CommitFile := ⟨"a.txt", "blob-a"⟩

/-- Sample changed file `b.txt`. -/
def fileB : CommitFile := ⟨"b.txt", "blob-b"⟩

/-- Sample changed file `c.txt`. -/
def fileC : CommitFile := ⟨"c.txt", "blob-c"⟩

/-- PR-side commit a0 (oldest, used in the three-commit scenario). -/
def cA0 : Commit := ⟨"a0", "t0", ["z0"], [fileC]⟩

/-- PR-side commit a1. -/
def cA1 : Commit := ⟨"a1", "t1", ["z1"], [fileA]⟩

/-- PR-side commit a2 (newest PR commit; its tree SHA is "t2"). -/
def cA2 : Commit := ⟨"a2", "t2", ["a1"], [fileB]⟩

/-- Branch commit b2: the rebase merge point, same change set as a2. -/
def cB2 : Commit := ⟨"b2", "t2", ["b1"], [fileB]⟩

/-- Branch commit b1: same change set as a1, parent b0. -/
def cB1 : Commit := ⟨"b1", "t1", ["b0"], [fileA]⟩

/-- Branch commit b0: the commit below the rebased span. -/
def cB0 : Commit := ⟨"b0", "t00", ["bx"], []⟩

/-- Branch commit b1 as a root commit: zero parents. -/
def cB1root : Commit := ⟨"b1", "t1", [], [fileA]⟩

/-- Branch commit b1 with a change set matching no PR commit. -/
def cB1bad : Commit := ⟨"b1", "t9", ["b0"], [fileC]⟩

/-- The sample rebased pull request; its merge point is branch commit b2. -/
def prW : PullRequest := ⟨"mattermost", "repo", 1, "b2"⟩

/-- Environment of the clean two-commit rebase scenario: PR commits a1, a2;
branch history b2 → b1 → b0 with fingerprints matching commit by commit. -/
def envWalk : Env :=
  ⟨some ["a1", "a2"],
   fun s =>
     if s = "a1" then some cA1
     else if s = "a2" then some cA2
     else if s = "b2" then some cB2
     else if s = "b1" then some cB1
     else if s = "b0" then some cB0
     else none⟩

/-- Environment of the three-commit scenario whose branch walk reaches the
root commit b1 (zero parents) while PR commit a0 is still unmatched. -/
def envRoot : Env :=
  ⟨some ["a0", "a1", "a2"],
   fun s =>
     if s = "a0" then some cA0
     else if s = "a1" then some cA1
     else if s = "a2" then some cA2
     else if s = "b2" then some cB2
     else if s = "b1" then some cB1root
     else none⟩

/-- Environment of the mismatch scenario: the second branch commit's change
set (c.txt) differs from PR commit a1's (a.txt). -/
def envMis : Env :=
  ⟨some ["a1", "a2"],
   fun s =>
     if s = "a1" then some cA1
     else if s = "a2" then some cA2
     else if s = "b2" then some cB2
     else if s = "b1" then some cB1bad
     else if s = "b0" then some cB0
     else none⟩

/-- Pull request merged through a real merge commit m0. -/
def prM : PullRequest := ⟨"mattermost", "repo", 2, "m0"⟩

/-- The merge commit m0 with two parents p0 (mainline) and p1 (PR side). -/
def cM : Commit := ⟨"m0", "tm", ["p0", "p1"], [fileB]⟩

/-- Mainline parent p0: its tree does not match the PR head. -/
def cP0 : Commit := ⟨"p0", "tp0", ["x0"], []⟩

/-- PR-side parent p1: its tree SHA equals the last PR commit's ("t2"). -/
def cP1 : Commit := ⟨"p1", "t2", ["y0"], []⟩

/-- Environment of the merge-commit scenario: PR commits a1, a2; merge
commit m0 whose parent index 1 carries the PR-side tree. -/
def envMerge : Env :=
  ⟨some ["a1", "a2"],
   fun s =>
     if s = "a1" then some cA1
     else if s = "a2" then some cA2
     else if s = "m0" then some cM
     else if s = "p0" then some cP0
     else if s = "p1" then some cP1
     else none⟩

/-- Orchestrator run in which every collaborator call succeeds but the
post-cherry-pick porcelain status contains an unmerged ("U") entry. The
push and PR-creation results are set to succeed, so only the conflict can
stop the run. -/
def envCP : CPEnv :=
  ⟨none, some prW, some SQUASH, some "automated-cherry-pick-of-1-1700000000",
   none, some ("UU file.txt" ++ "\n" ++ "M  other.txt"),
   .ok 1, .ok ["b1", "b2"], none, some 7⟩

theorem charsLe_total : ∀ as bs : List Char, charsLe as bs = true ∨ charsLe bs as = true
  | [], bs => by
    cases bs <;> simp [charsLe]
  | a :: as, [] => by
    simp [charsLe]
  | a :: as, b :: bs => by
    by_cases h : a = b
    · subst h
      rcases charsLe_total as bs with h2 | h2
      · exact Or.inl (by simpa [charsLe] using h2)
      · exact Or.inr (by simpa [charsLe] using h2)
    · rcases lt_or_gt_of_ne h with hlt | hgt
      · exact Or.inl (by simp [charsLe, h, hlt])
      · exact Or.inr (by simp [charsLe, Ne.symm h, hgt])

theorem charsLe_trans : ∀ as bs cs : List Char,
    charsLe as bs = true → charsLe bs cs = true → charsLe as cs = true
  | [], _, cs, _, _ => by cases cs <;> simp [charsLe]
  | a :: as, [], _, h1, _ => by simp [charsLe] at h1
  | a :: as, b :: bs, [], _, h2 => by simp [charsLe] at h2
  | a :: as, b :: bs, c :: cs, h1, h2 => by
    by_cases hab : a = b <;> by_cases hbc : b = c
    · subst hab; subst hbc
      simp only [charsLe, if_pos rfl] at h1 h2 ⊢
      exact charsLe_trans as bs cs h1 h2
    · subst hab
      simp only [charsLe, if_neg hbc] at h2
      have hlt : a < c := of_decide_eq_true h2
      simp [charsLe, ne_of_lt hlt, hlt]
    · subst hbc
      simp only [charsLe, if_neg hab] at h1
      have hlt : a < b := of_decide_eq_true h1
      simp [charsLe, ne_of_lt hlt, hlt]
    · simp only [charsLe, if_neg hab] at h1
      simp only [charsLe, if_neg hbc] at h2
      have hlt : a < c := lt_trans (of_decide_eq_true h1) (of_decide_eq_true h2)
      simp [charsLe, ne_of_lt hlt, hlt]

theorem charsLe_antisymm : ∀ as bs : List Char,
    charsLe as bs = true → charsLe bs as = true → as = bs
  | [], [], _, _ => rfl
  | [], b :: bs, _, h2 => by simp [charsLe] at h2
  | a :: as, [], h1, _ => by simp [charsLe] at h1
  | a :: as, b :: bs, h1, h2 => by
    by_cases hab : a = b
    · subst hab
      simp only [charsLe, if_pos rfl] at h1 h2
      exact congrArg (a :: ·) (charsLe_antisymm as bs h1 h2)
    · simp only [charsLe, if_neg hab, if_neg (Ne.symm hab)] at h1 h2
      exact absurd (of_decide_eq_true h2) (not_lt_of_lt (of_decide_eq_true h1))

theorem strLe_total : ∀ a b : String, strLe a b ∨ strLe b a :=
  fun a b => charsLe_total a.data b.data

theorem strLe_trans : ∀ a b c : String, strLe a b → strLe b c → strLe a c :=
  fun a b c => charsLe_trans a.data b.data c.data

theorem strLe_antisymm : ∀ a b : String, strLe a b → strLe b a → a = b := by
  intro a b h1 h2
  cases a
  cases b
  exact congrArg String.mk (charsLe_antisymm _ _ h1 h2)

theorem foldl_or_startsWithU :
    ∀ (l : List String) (b : Bool),
      l.foldl (fun acc line => acc || startsWithU line) b = (b || l.any startsWithU)
  | [], b => by simp
  | line :: rest, b => by
    simp [foldl_or_startsWithU rest, Bool.or_assoc]

/-- C8: the conflict detector reports a conflict exactly when some line of
the porcelain status starts with "U"; statuses whose lines all start
otherwise report no conflict. -/
theorem hasMergeConflicts_iff_unmerged_line (status : String) :
    (hasMergeConflicts status).1 = true ↔
      ∃ line ∈ splitLines status, startsWithU line = true := by
  simp [hasMergeConflicts, foldl_or_startsWithU]

/-- C10: `hasMergeConflicts` always returns an empty conflicting-file list
and a nil error, even on a status (such as one with an unmerged entry) for
which it reports that conflicts exist; `Repository.HasMergeConflicts`
forwards exactly that triple whenever the status command succeeds. -/
theorem hasMergeConflicts_reports_no_paths :
    (∀ status, (hasMergeConflicts status).2.1 = [] ∧
      (hasMergeConflicts status).2.2 = none) ∧
    (hasMergeConflicts ("UU conflict.txt")).1 = true ∧
    (∀ status, HasMergeConflicts (some status) =
      ((hasMergeConflicts status).1, some [], none)) := by
  exact ⟨fun status => ⟨rfl, rfl⟩, by decide, fun status => rfl⟩

/-- C9: the fingerprint is invariant under permutation of the changed-file
set, and the empty file list fingerprints to exactly the empty string. -/
theorem changeTree_perm_invariant (digest : String → String)
    (files files2 : List CommitFile) (h : files.Perm files2) :
    changeTree digest files = changeTree digest files2 ∧
      changeTree digest [] = "" := by
  constructor
  · by_cases hnil : files = []
    · subst hnil
      have h2 := h.nil_eq
      rw [← h2]
    · have hnil2 : files2 ≠ [] := by
        intro h2
        subst h2
        exact hnil h.eq_nil
      simp only [changeTree, if_neg hnil, if_neg hnil2]
      congr 1
      congr 1
      exact @List.eq_of_perm_of_sorted String strLe ⟨strLe_antisymm⟩ _ _
        (((List.perm_insertionSort strLe _).trans (h.map CommitFile.sha)).trans
          (List.perm_insertionSort strLe _).symm)
        (@List.sorted_insertionSort String strLe _ ⟨strLe_total⟩ ⟨strLe_trans⟩ _)
        (@List.sorted_insertionSort String strLe _ ⟨strLe_total⟩ ⟨strLe_trans⟩ _)
  · rfl

/-- Witness for C9 at a concrete two-file change set and its swap. -/
theorem changeTree_perm_invariant_witness :
    ([fileA, fileB] : List CommitFile).Perm [fileB, fileA] ∧
    (changeTree (fun s => s) [fileA, fileB] =
        changeTree (fun s => s) [fileB, fileA] ∧
      changeTree (fun s => s) [] = "") :=
  ⟨List.Perm.swap fileB fileA [],
   changeTree_perm_invariant (fun s => s) [fileA, fileB] [fileB, fileA]
     (List.Perm.swap fileB fileA [])⟩

/-- C1: whenever the merge-point commit is fetched successfully, the
classifier returns exactly: `merge` when that commit has more than one
parent; otherwise `squash` for a single-commit PR; otherwise `rebase` when
the merge-point fingerprint equals that of the last PR commit, and
`squash` when the fingerprints differ. -/
theorem getMergeMode_classification (ct : List CommitFile → String) (env : Env)
    (pr : PullRequest) (commits : List Commit) (mc lastc : Commit)
    (hsha : pr.mergeCommitSHA ≠ "")
    (hfetch : env.getCommit pr.mergeCommitSHA = some mc)
    (hlast : commits.getLast? = some lastc) :
    (mc.parents.length > 1 →
      getMergeMode ct env true pr commits = .ok MERGE) ∧
    (mc.parents.length ≤ 1 → commits.length = 1 →
      getMergeMode ct env true pr commits = .ok SQUASH) ∧
    (mc.parents.length ≤ 1 → commits.length ≠ 1 →
      ct mc.files = ct lastc.files →
      getMergeMode ct env true pr commits = .ok REBASE) ∧
    (mc.parents.length ≤ 1 → commits.length ≠ 1 →
      ct mc.files ≠ ct lastc.files →
      getMergeMode ct env true pr commits = .ok SQUASH) := by
  simp only [getMergeMode, hfetch, if_neg hsha, Bool.true_eq_false,
    if_neg (Bool.noConfusion : ¬ (true = false)), hlast]
  refine ⟨fun h1 => by simp [if_pos h1], fun h1 h2 => ?_, fun h1 h2 h3 => ?_,
    fun h1 h2 h3 => ?_⟩
  · simp [if_neg (by omega : ¬ mc.parents.length > 1), h2]
  · simp [if_neg (by omega : ¬ mc.parents.length > 1), h2, h3]
  · simp [if_neg (by omega : ¬ mc.parents.length > 1), h2, h3]

/-- Witness for C1: the two-commit rebase scenario classifies as rebase. -/
theorem getMergeMode_classification_witness :
    prW.mergeCommitSHA ≠ "" ∧
    getMergeMode ctFiles envWalk true prW [cA1, cA2] = .ok REBASE := by
  have h := getMergeMode_classification ctFiles envWalk prW [cA1, cA2] cB2 cA2
    (by decide) (by decide) (by decide)
  exact ⟨by decide, h.2.2.1 (by decide) (by decide) (by decide)⟩

theorem findLoop_spec (env : Env) (prSHA : String) (total : Nat) :
    ∀ (parents : List String) (pn : Nat),
      (∀ p ∈ parents, (env.getCommit p).isSome) →
      findLoop env prSHA total parents pn =
        match firstMatchingParent env prSHA parents with
        | some i => .ok (pn + i)
        | none => .err ("unable to find patch tree of merge commit among " ++
            toString total ++ " parents")
  | [], pn, _ => rfl
  | p :: rest, pn, hall => by
    obtain ⟨c, hc⟩ := Option.isSome_iff_exists.mp (hall p (by simp))
    have hrest : ∀ q ∈ rest, (env.getCommit q).isSome :=
      fun q hq => hall q (by simp [hq])
    by_cases hm : c.treeSHA = prSHA
    · simp [findLoop, firstMatchingParent, parentMatches, hc, hm]
    · have hpm : parentMatches env prSHA p = false := by
        simp [parentMatches, hc, hm]
      simp only [findLoop, hc, if_neg hm, firstMatchingParent, hpm,
        Bool.false_eq_true, if_neg (Bool.noConfusion : ¬ (false = true)),
        findLoop_spec env prSHA total rest (pn + 1) hrest]
      cases firstMatchingParent env prSHA rest with
      | none => rfl
      | some i => simp [Nat.add_assoc, Nat.add_comm 1 i]

/-- C4: for a fetched merge commit with at least one parent (all of whose
parents are fetchable), the patch-tree resolver returns the index of the
first parent whose tree SHA matches the last PR commit's tree SHA, and
returns an error — never a defaulted index — when no parent matches. -/
theorem findPatchTree_first_match (env : Env) (pr : PullRequest)
    (prCommits : List Commit) (mc lastc : Commit)
    (hl : getCommits env pr = .ok prCommits)
    (hlast : prCommits.getLast? = some lastc)
    (hm : env.getCommit pr.mergeCommitSHA = some mc)
    (hp : mc.parents ≠ [])
    (hall : ∀ p ∈ mc.parents, (env.getCommit p).isSome) :
    (∀ i, firstMatchingParent env lastc.treeSHA mc.parents = some i →
      findPatchTree env pr = .ok i) ∧
    (firstMatchingParent env lastc.treeSHA mc.parents = none →
      ∃ msg, findPatchTree env pr = .err msg) := by
  have hne : prCommits ≠ [] := by
    intro h
    subst h
    simp at hlast
  have hlen : ¬ prCommits.length = 0 := by
    simpa [List.length_eq_zero] using hne
  have hplen : ¬ mc.parents.length = 0 := by
    simpa [List.length_eq_zero] using hp
  have hloop := findLoop_spec env lastc.treeSHA mc.parents.length mc.parents 0 hall
  constructor
  · intro i hi
    simp [findPatchTree, hl, hm, hlen, hplen, hlast, hloop, hi]
  · intro hnone
    exact ⟨"unable to find patch tree of merge commit among " ++
        toString mc.parents.length ++ " parents",
      by simp [findPatchTree, hl, hm, hlen, hplen, hlast, hloop, hnone]⟩

/-- Witness for C4: in the merge scenario, parent index 1 carries the
PR-side tree and the resolver returns 1. -/
theorem findPatchTree_first_match_witness :
    firstMatchingParent envMerge cA2.treeSHA cM.parents = some 1 ∧
    findPatchTree envMerge prM = .ok 1 := by
  have h := findPatchTree_first_match envMerge prM [cA1, cA2] cM cA2
    (by decide) (by decide) (by decide) (by decide)
    (by intro p hp; fin_cases hp <;> decide)
  exact ⟨by decide, h.1 1 (by decide)⟩

/-- C3 (amended): whenever the patch-tree resolver succeeds, the merge
branch of the run passes the returned zero-based parent index to
`git cherry-pick -m` unchanged — no plus-one translation is performed
anywhere between the resolver and the git invocation. -/
theorem mergeArgs_pass_parent_unchanged (env : Env) (pr : PullRequest)
    (parent : Nat) (h : findPatchTree env pr = .ok parent) :
    mergeModeCherryPickArgs env pr =
      .ok ["cherry-pick", "-m", toString parent, pr.mergeCommitSHA] := by
  simp [mergeModeCherryPickArgs, h, cherryPickMergeCommitCmd]

/-- Witness for the amended C3 at the concrete merge scenario. -/
theorem mergeArgs_pass_parent_unchanged_witness :
    findPatchTree envMerge prM = .ok 1 ∧
    mergeModeCherryPickArgs envMerge prM =
      .ok ["cherry-pick", "-m", toString 1, prM.mergeCommitSHA] :=
  ⟨by decide, mergeArgs_pass_parent_unchanged envMerge prM 1 (by decide)⟩

/-- Counterexample to C3 as stated: in the merge scenario the resolver
returns index 1, yet the argument handed to `-m` is "1", not the "2" that
a zero-based-plus-one translation would produce. -/
theorem mergeArgs_no_plus_one :
    findPatchTree envMerge prM = .ok 1 ∧
    mergeModeCherryPickArgs envMerge prM =
      .ok ["cherry-pick", "-m", "1", "m0"] ∧
    Outcome.ok ["cherry-pick", "-m", "1", "m0"] ≠
      Outcome.ok ["cherry-pick", "-m", "2", "m0"] := by
  exact ⟨by decide, by decide, by decide⟩

theorem rebaseLoop_walk (ct : List CommitFile → String) (env : Env) :
    ∀ {ps cs0 : List Commit}, Walk ct env ps cs0 →
      ∀ (c : Commit) (cs : List Commit), cs0 = c :: cs →
        ∀ acc, rebaseLoop ct env ps c acc = .ok (acc ++ cs0) := by
  intro ps cs0 h
  induction h with
  | last prc c1 psha rest next h1 hp hg =>
    intro c cs heq acc
    injection heq with hc hcs
    subst hc
    subst hcs
    simp [rebaseLoop, if_neg (not_not_intro h1), hp, hg]
  | step prc c1 psha rest next p2 ps2 cs2 h1 hp hg hw ih =>
    intro c cs heq acc
    injection heq with hc hcs
    subst hc
    subst hcs
    conv_lhs => rw [rebaseLoop]
    simp only [if_neg (not_not_intro h1), hp, hg]
    rw [ih next cs2 rfl (acc ++ [c1])]
    simp

theorem shaLoop_walk (ct : List CommitFile → String) (env : Env) :
    ∀ {ps cs0 : List Commit}, Walk ct env ps cs0 →
      ∀ (c : Commit) (cs : List Commit), cs0 = c :: cs →
        ∀ acc, shaLoop ct env ps c acc = .ok (acc ++ cs0.map Commit.sha) := by
  intro ps cs0 h
  induction h with
  | last prc c1 psha rest next h1 hp hg =>
    intro c cs heq acc
    injection heq with hc hcs
    subst hc
    subst hcs
    simp [shaLoop, if_neg (not_not_intro h1), hp, hg]
  | step prc c1 psha rest next p2 ps2 cs2 h1 hp hg hw ih =>
    intro c cs heq acc
    injection heq with hc hcs
    subst hc
    subst hcs
    conv_lhs => rw [shaLoop]
    simp only [if_neg (not_not_intro h1), hp, hg]
    rw [ih next cs2 rfl (acc ++ [c1.sha])]
    simp

theorem walk_length (ct : List CommitFile → String) (env : Env) :
    ∀ {ps cs : List Commit}, Walk ct env ps cs → ps.length = cs.length := by
  intro ps cs h
  induction h with
  | last _ _ _ _ _ _ _ _ => rfl
  | step _ _ _ _ _ _ _ _ _ _ _ _ ih => simpa using ih

theorem walk_first_parents (ct : List CommitFile → String) (env : Env) :
    ∀ {ps cs : List Commit} (c : Commit) (cs2 : List Commit),
      Walk ct env ps cs → cs = c :: cs2 → c.parents ≠ [] := by
  intro ps cs c cs2 h
  cases h with
  | last prc c1 psha rest next h1 hp hg =>
    intro heq
    injection heq with hc hcs
    subst hc
    simp [hp]
  | step prc c1 psha rest next p2 ps2 cs3 h1 hp hg hw =>
    intro heq
    injection heq with hc hcs
    subst hc
    simp [hp]

/-- C2 (amended): for a rebased PR whose branch history fingerprint-matches
commit by commit, `defaultPRImplementation.getRebaseCommits` returns
exactly N commits (N the PR commit count), each taken from the branch
chain, reversed into oldest-first order; `PullRequest.GetRebaseCommits`
returns the same N branch SHAs but in the collected newest-first walk
order, performing no reversal. -/
theorem rebaseCommits_order_and_count (ct : List CommitFile → String)
    (env : Env) (pr : PullRequest) (prCommits : List Commit)
    (c0 : Commit) (cs : List Commit)
    (hl : getCommits env pr = .ok prCommits)
    (hmc : env.getCommit pr.mergeCommitSHA = some c0)
    (hwalk : Walk ct env prCommits.reverse (c0 :: cs)) :
    getRebaseCommits ct env pr = .ok ((c0 :: cs).reverse) ∧
    ((c0 :: cs).reverse).length = prCommits.length ∧
    GetRebaseCommits ct env true pr = .ok ((c0 :: cs).map Commit.sha) := by
  have hpar : c0.parents ≠ [] := walk_first_parents ct env c0 cs hwalk rfl
  have hlen : prCommits.reverse.length = (c0 :: cs).length :=
    walk_length ct env hwalk
  have hloop := rebaseLoop_walk ct env hwalk c0 cs rfl []
  have hsha := shaLoop_walk ct env hwalk c0 cs rfl []
  refine ⟨?_, ?_, ?_⟩
  · simp only [getRebaseCommits, hl, hmc]
    rw [if_neg (by simpa [List.length_eq_zero] using hpar)]
    rw [hloop]
    simp
  · simp only [List.length_reverse] at hlen ⊢
    omega
  · simp only [GetRebaseCommits, hmc, hl, Bool.true_eq_false, if_neg,
      if_neg (Bool.noConfusion : ¬ (true = false))]
    rw [hsha]
    simp

/-- Witness for the amended C2: the two-commit scenario; the commit-list
reconstruction is oldest-first, the SHA reconstruction newest-first. -/
theorem rebaseCommits_order_and_count_witness :
    getCommits envWalk prW = .ok [cA1, cA2] ∧
    getRebaseCommits ctFiles envWalk prW = .ok [cB1, cB2] ∧
    GetRebaseCommits ctFiles envWalk true prW = .ok ["b2", "b1"] := by
  have hwalk : Walk ctFiles envWalk [cA2, cA1] [cB2, cB1] :=
    Walk.step cA2 cB2 "b1" [] cB1 cA1 [] []
      (by decide) (by decide) (by decide)
      (Walk.last cA1 cB1 "b0" [] cB0 (by decide) (by decide) (by decide))
  have h := rebaseCommits_order_and_count ctFiles envWalk prW [cA1, cA2]
    cB2 [cB1] (by decide) (by decide) hwalk
  exact ⟨by decide, h.1, h.2.2⟩

/-- Counterexample to C2 as stated: on the two-commit scenario the
SHA-returning reconstruction `PullRequest.GetRebaseCommits` yields the
branch SHAs newest-first — ["b2", "b1"], not the oldest-first ["b1", "b2"]
the claim requires — while the commit-list variant does reverse. -/
theorem GetRebaseCommits_not_oldest_first :
    GetRebaseCommits ctFiles envWalk true prW = .ok ["b2", "b1"] ∧
    Outcome.ok ["b2", "b1"] ≠ Outcome.ok ["b1", "b2"] ∧
    getRebaseCommits ctFiles envWalk prW = .ok [cB1, cB2] := by
  exact ⟨by decide, by decide, by decide⟩

theorem rebaseLoop_walkBad (ct : List CommitFile → String) (env : Env) :
    ∀ {ps : List Commit} {c : Commit}, WalkBad ct env ps c →
      ∀ acc, ∃ msg, rebaseLoop ct env ps c acc = .err msg := by
  intro ps c h
  induction h with
  | here prc c1 ps2 hne =>
    intro acc
    exact ⟨"Mismatch in checktrees on commit PR:" ++ ct prc.files ++
        " vs Branch:" ++ ct c1.files,
      by simp [rebaseLoop, if_pos hne]⟩
  | there prc c1 psha rest next ps2 heq hp hg hbad ih =>
    intro acc
    obtain ⟨msg, hmsg⟩ := ih (acc ++ [c1])
    refine ⟨msg, ?_⟩
    conv_lhs => rw [rebaseLoop]
    simp only [if_neg (not_not_intro heq), hp, hg]
    exact hmsg

theorem shaLoop_walkBad (ct : List CommitFile → String) (env : Env) :
    ∀ {ps : List Commit} {c : Commit}, WalkBad ct env ps c →
      ∀ acc, ∃ msg, shaLoop ct env ps c acc = .err msg := by
  intro ps c h
  induction h with
  | here prc c1 ps2 hne =>
    intro acc
    exact ⟨"Mismatch in PR and branch hashes in commit PR:" ++ ct prc.files ++
        " vs Branch:" ++ ct c1.files,
      by simp [shaLoop, if_pos hne]⟩
  | there prc c1 psha rest next ps2 heq hp hg hbad ih =>
    intro acc
    obtain ⟨msg, hmsg⟩ := ih (acc ++ [c1.sha])
    refine ⟨msg, ?_⟩
    conv_lhs => rw [shaLoop]
    simp only [if_neg (not_not_intro heq), hp, hg]
    exact hmsg

/-- C5: a fingerprint mismatch at any step of the branch walk makes both
rebase reconstructions return an error — never a partial or truncated
SHA list. -/
theorem rebase_mismatch_errors (ct : List CommitFile → String) (env : Env)
    (pr : PullRequest) (prCommits : List Commit) (c0 : Commit)
    (hl : getCommits env pr = .ok prCommits)
    (hmc : env.getCommit pr.mergeCommitSHA = some c0)
    (hbad : WalkBad ct env prCommits.reverse c0) :
    (∃ msg, getRebaseCommits ct env pr = .err msg) ∧
    (∃ msg, GetRebaseCommits ct env true pr = .err msg) := by
  constructor
  · by_cases hpar : c0.parents.length = 0
    · exact ⟨"branch commit has no parents",
        by simp [getRebaseCommits, hl, hmc, hpar]⟩
    · obtain ⟨msg, hmsg⟩ := rebaseLoop_walkBad ct env hbad []
      refine ⟨msg, ?_⟩
      simp only [getRebaseCommits, hl, hmc, if_neg hpar]
      rw [hmsg]
  · obtain ⟨msg, hmsg⟩ := shaLoop_walkBad ct env hbad []
    refine ⟨msg, ?_⟩
    simp only [GetRebaseCommits, hmc, hl,
      if_neg (Bool.noConfusion : ¬ (true = false))]
    exact hmsg

/-- Witness for C5: the mismatch scenario (branch commit b1 changes c.txt
where PR commit a1 changed a.txt) makes both reconstructions error out. -/
theorem rebase_mismatch_errors_witness :
    (∃ msg, getRebaseCommits ctFiles envMis prW = .err msg) ∧
    (∃ msg, GetRebaseCommits ctFiles envMis true prW = .err msg) :=
  rebase_mismatch_errors ctFiles envMis prW [cA1, cA2] cB2
    (by decide) (by decide)
    (WalkBad.there cA2 cB2 "b1" [] cB1bad [cA1]
      (by decide) (by decide) (by decide)
      (WalkBad.here cA1 cB1bad [] (by decide)))

/-- C6 evaluated at its failing input: in the three-commit scenario the
branch walk reaches root commit b1 (zero parents) while PR commit a0 is
still unmatched; both reconstructions then perform the `Parents[0]` access
on the empty list — a Go runtime panic (index out of range), not a
returned error. -/
theorem rebase_root_commit_runtime_failure :
    getCommits envRoot prW = .ok [cA0, cA1, cA2] ∧
    cB1root.parents = [] ∧
    getRebaseCommits ctFiles envRoot prW =
      .fail "runtime error: index out of range" ∧
    GetRebaseCommits ctFiles envRoot true prW =
      .fail "runtime error: index out of range" := by
  exact ⟨by decide, by decide, by decide, by decide⟩

/-- C7 evaluated at its failing input: a run in which every collaborator
call succeeds while the post-cherry-pick porcelain status contains an
unmerged ("U"-prefixed) entry. The conflict is detected (the boolean is
true), but the conflict branch wraps a nil error — which `errors.Wrap`
returns as nil — so the run returns no error, pushes the feature branch
and opens the pull request with conflicts present. -/
theorem conflicts_do_not_stop_run :
    envCP.statusRaw = some ("UU file.txt" ++ "\n" ++ "M  other.txt") ∧
    (hasMergeConflicts ("UU file.txt" ++ "\n" ++ "M  other.txt")).1 = true ∧
    errorsWrap none "conflicts found while cherrypicking" = none ∧
    CreateCherryPickPR envCP = ⟨.ok (), true, true⟩ := by
  exact ⟨by decide, by decide, rfl, by decide⟩
